import Mathlib

/-!
Verification development for the `regen` regular-expression generator.

The Go source is shallowly embedded: each Go struct type becomes a
constructor of an inductive type, each method becomes a Lean function on
that inductive, and Go strings become Lean `String`s.  Where the Go code
measures `len(s)` it measures UTF-8 bytes, so the embedding uses
`String.utf8ByteSize`.  Go's `subRe[0] == '\\'` reads the first byte; a
first byte equal to 0x5C can only be the one-byte UTF-8 encoding of the
character `\`, so the embedding tests whether the first character is a
backslash.
-/

namespace Regen

/-- Flags are a bitset (`type Flag uint`); we model the bitset as `Nat`.
`FlagCaseInsensitive = 1`, `FlagMultiLine = 2`, `FlagMatchNewLine = 4`,
`FlagUngreedy = 8`. -/
def flagString (f : Nat) : String :=
  (if f.land 1 != 0 then "i" else "")
    ++ (if f.land 2 != 0 then "m" else "")
    ++ (if f.land 4 != 0 then "s" else "")
    ++ (if f.land 8 != 0 then "U" else "")

/-- The character-class variants of the source:
`charSetRegexp` (chars, nested charClasses, negated),
`charRangeRegexp`, `asciiCharClassRegexp`, `unicodeCharClassRegexp`.
The `perl` constructor is Modelled from the spec: the `perlCharClass`
helper used for the `Whitespace`/`Digit`/`WordCharacter` constants is not
under src/ (only its callers are); per the repository's README and tests
it renders as a backslash followed by the class letter, upper-cased when
negated (`\s` / `\S`). -/
inductive CharClass where
  | set (chars : List Char) (charClasses : List CharClass) (negated : Bool)
  | range (start stop : Char) (negated : Bool)
  | ascii (name : String) (negated : Bool)
  | unicode (name : String) (negated : Bool)
  | perl (letter : Char) (negated : Bool)

/-- The negation flag carried by each variant. -/
def CharClass.negated : CharClass → Bool
  | .set _ _ n => n
  | .range _ _ n => n
  | .ascii _ n => n
  | .unicode _ n => n
  | .perl _ n => n

/-- Replace the negation flag, leaving every other field unchanged. -/
def CharClass.setNeg : CharClass → Bool → CharClass
  | .set chars classes _, b => .set chars classes b
  | .range a z _, b => .range a z b
  | .ascii name _, b => .ascii name b
  | .unicode name _, b => .unicode name b
  | .perl letter _, b => .perl letter b

/-- `writeCharSetRune`: a bare `\` or `^` inside a class body is
backslash-escaped; every other rune is written as is. -/
def writeCharSetRune (c : Char) : String :=
  (if c == '\\' || c == '^' then "\\" else "") ++ c.toString

/-- The loop in `charSetRegexp.charSetRegexp` writing each rune. -/
def charsStr (chars : List Char) : String :=
  chars.foldl (fun sb c => sb ++ writeCharSetRune c) ""

/-- `unicodeCharClassRegexp.Regexp`: `\p`/`\P` prefixed name, braced when
the name is longer than one byte. -/
def unicodeStr (name : String) (negated : Bool) : String :=
  (if negated then "\\P" else "\\p")
    ++ (if name.utf8ByteSize > 1 then "\x7b" ++ name ++ "\x7d" else name)

/-- Modelled from the spec: rendering of the missing `perlCharClass`
(`\s`, and `\S` when negated, per README and tests). -/
def perlStr (letter : Char) (negated : Bool) : String :=
  "\\" ++ (if negated then letter.toUpper.toString else letter.toString)

mutual

/-- The `charSetRegexp()` interface method: the class body that goes inside
the surrounding brackets. -/
def CharClass.charSetStr : CharClass → String
  | .set chars classes negated =>
      (if negated then "^" else "") ++ charsStr chars ++ classListStr classes
  | .range start stop negated =>
      (if negated then "^" else "")
        ++ writeCharSetRune start ++ "-" ++ writeCharSetRune stop
  | .ascii name negated =>
      "[:" ++ (if negated then "^" else "") ++ name ++ ":]"
  | .unicode name negated => unicodeStr name negated
  | .perl letter negated => perlStr letter negated

/-- The loop in `charSetRegexp.charSetRegexp` writing each nested class. -/
def classListStr : List CharClass → String
  | [] => ""
  | c :: rest => c.charSetStr ++ classListStr rest

end

/-- The `Regexp()` method of the class types: set/range/ascii wrap the
body in `[...]`; the unicode class returns its `\p...` form directly
(its `charSetRegexp` and `Regexp` coincide); likewise for the modelled
perl class. -/
def CharClass.renderClass : CharClass → String
  | .set chars classes negated => "[" ++ (CharClass.set chars classes negated).charSetStr ++ "]"
  | .range start stop negated => "[" ++ (CharClass.range start stop negated).charSetStr ++ "]"
  | .ascii name negated => "[" ++ (CharClass.ascii name negated).charSetStr ++ "]"
  | .unicode name negated => unicodeStr name negated
  | .perl letter negated => perlStr letter negated

/-- `Negate` on each variant flips the `negated` field. -/
def CharClass.Negate : CharClass → CharClass
  | .set chars classes negated => .set chars classes (!negated)
  | .range start stop negated => .range start stop (!negated)
  | .ascii name negated => .ascii name (!negated)
  | .unicode name negated => .unicode name (!negated)
  | .perl letter negated => .perl letter (!negated)

/-- `Append`: `charSetRegexp.Append` keeps its chars and appends to its
nested-class list; the other variants build a fresh `charSetRegexp` whose
nested-class list is the receiver followed by the appended classes and
whose `negated` is copied from the receiver.  (The perl case is Modelled
from the spec, following the same wrapping used by the other non-set
variants.) -/
def CharClass.Append : CharClass → List CharClass → CharClass
  | .set chars classes negated, cs => .set chars (classes ++ cs) negated
  | .range start stop negated, cs => .set [] (CharClass.range start stop negated :: cs) negated
  | .ascii name negated, cs => .set [] (CharClass.ascii name negated :: cs) negated
  | .unicode name negated, cs => .set [] (CharClass.unicode name negated :: cs) negated
  | .perl letter negated, cs => .set [] (CharClass.perl letter negated :: cs) negated

/-- `CharSet(chars ...rune)` -/
def CharSet (chars : List Char) : CharClass := .set chars [] false

/-- `CharRange(start, end rune)` -/
def CharRange (start stop : Char) : CharClass := .range start stop false

/-- `ASCIICharClass(name string)` -/
def ASCIICharClass (name : String) : CharClass := .ascii name false

/-- `UnicodeCharClass(name string)` -/
def UnicodeCharClass (name : String) : CharClass := .unicode name false

/-- Modelled from the spec: the missing `perlCharClass` constructor. -/
def perlCharClass (letter : Char) : CharClass := .perl letter false

/-- `Whitespace = perlCharClass('s')` -/
def Whitespace : CharClass := perlCharClass 's'

/-- `Digit = perlCharClass('d')` -/
def Digit : CharClass := perlCharClass 'd'

/-- `WordCharacter = perlCharClass('w')` -/
def WordCharacter : CharClass := perlCharClass 'w'

/-- The `Regexp` node variants of the source: `groupedRegexp`,
`repeatedRegexp`, `multiRegexp`, `literalRegexp`, and the character-class
types (which all implement `Regexp` directly). -/
inductive Regexp where
  | grouped (re : Regexp) (name : String) (setFlags unsetFlags : Nat) (noCapture : Bool)
  | repeated (re : Regexp) (min : Nat) (hasMin : Bool) (max : Nat) (hasMax : Bool)
      (ungreedy : Bool)
  | multi (res : List Regexp) (separator : String)
  | literal (re : String)
  | charClass (c : CharClass)

/-- Go's type assertion `_, ok := re.(GroupedRegexp)`: only
`groupedRegexp` implements that interface. -/
def Regexp.isGrouped : Regexp → Bool
  | .grouped .. => true
  | _ => false

/-- Go's type assertion `_, ok := re.(CharClass)`: exactly the
character-class types implement that interface. -/
def Regexp.isCharClass : Regexp → Bool
  | .charClass .. => true
  | _ => false

/-- Go's `subRe[0] == '\\'` reads the first byte; byte 0x5C is only ever
the one-byte encoding of `\`, so this is the first character being a
backslash. -/
def strHeadIsBackslash (s : String) : Bool :=
  match s.data with
  | [] => false
  | c :: _ => c == '\\'

/-- The `requiresParens` computation of `repeatedRegexp.Regexp`
(src/regen.go lines 171-183), with Go's `len` on UTF-8 bytes. -/
def requiresParens (re : Regexp) (subRe : String) : Bool :=
  let rp := true
  let rp := if re.isGrouped then false else rp
  let rp := if re.isCharClass then false else rp
  let rp := if subRe.utf8ByteSize == 1 then false else rp
  let rp := if subRe.utf8ByteSize == 2 && strHeadIsBackslash subRe then false else rp
  rp

/-- The quantifier suffix of `repeatedRegexp.Regexp` (src/regen.go lines
192-216); `hasMin` is not consulted, exactly as in the source. -/
def quantSuffix (min max : Nat) (hasMax : Bool) : String :=
  if !hasMax then
    if min == 0 then "*"
    else if min == 1 then "+"
    else "\x7b" ++ toString min ++ ",\x7d"
  else
    if max == 1 && min == 0 then "?"
    else if min == max then "\x7b" ++ toString min ++ "\x7d"
    else "\x7b" ++ toString min ++ "," ++ toString max ++ "\x7d"

mutual

/-- The `Regexp()` rendering method, one case per variant. -/
def Regexp.render : Regexp → String
  | .grouped re name setFlags unsetFlags noCapture =>
      let flagsb := (if setFlags != 0 then flagString setFlags else "")
        ++ (if unsetFlags != 0 then "-" ++ flagString unsetFlags else "")
      "(" ++ (if name != "" then "?P<" ++ name ++ ">" else "")
        ++ (if noCapture then "?" ++ flagsb ++ ":"
            else if flagsb != "" then "(?" ++ flagsb ++ ")" else "")
        ++ re.render ++ ")"
  | .repeated re min _hasMin max hasMax ungreedy =>
      let subRe := re.render
      (if requiresParens re subRe then "(" ++ subRe ++ ")" else subRe)
        ++ quantSuffix min max hasMax
        ++ (if ungreedy then "?" else "")
  | .multi res separator => renderSep res separator
  | .literal re => re
  | .charClass c => c.renderClass

/-- The loop of `multiRegexp.Regexp`: children in order with the
separator between consecutive elements only. -/
def renderSep : List Regexp → String → String
  | [], _ => ""
  | [r], _ => r.render
  | r :: rest, separator => r.render ++ separator ++ renderSep rest separator

end

/-- `Group()`: `groupedRegexp.Group` returns the receiver unchanged;
every other variant wraps itself in a fresh `groupedRegexp`. -/
def Regexp.Group : Regexp → Regexp
  | .grouped re name setFlags unsetFlags noCapture =>
      .grouped re name setFlags unsetFlags noCapture
  | r => .grouped r "" 0 0 false

/-- `Repeat()`: every variant wraps itself in a fresh `repeatedRegexp`. -/
def Regexp.Repeat (r : Regexp) : Regexp := .repeated r 0 false 0 false false

/-- `Min(min)`: sets `min` and `hasMin` (a method of `repeatedRegexp`
only; other variants cannot reach it in Go and are returned unchanged). -/
def Regexp.Min : Regexp → Nat → Regexp
  | .repeated re _ _ max hasMax ungreedy, m => .repeated re m true max hasMax ungreedy
  | r, _ => r

/-- `Max(max)`: sets `max` and `hasMax`. -/
def Regexp.Max : Regexp → Nat → Regexp
  | .repeated re min hasMin _ _ ungreedy, m => .repeated re min hasMin m true ungreedy
  | r, _ => r

/-- `Exactly(num)`: sets both bounds to `num`. -/
def Regexp.Exactly : Regexp → Nat → Regexp
  | .repeated re _ _ _ _ ungreedy, n => .repeated re n true n true ungreedy
  | r, _ => r

/-- `Greedy()`: clears the `ungreedy` field. -/
def Regexp.Greedy : Regexp → Regexp
  | .repeated re min hasMin max hasMax _ => .repeated re min hasMin max hasMax false
  | r => r

/-- `Ungreedy()`: sets the `ungreedy` field. -/
def Regexp.Ungreedy : Regexp → Regexp
  | .repeated re min hasMin max hasMax _ => .repeated re min hasMin max hasMax true
  | r => r

/-- `Optional()`: every variant returns
`repeatedRegexp{re: x}.Min(0).Max(1)`, i.e. `x.Repeat().Min(0).Max(1)`. -/
def Regexp.Optional (r : Regexp) : Regexp := (r.Repeat.Min 0).Max 1

/-- `Capture()`: clears `noCapture` and the name (a `groupedRegexp`
method; other variants cannot reach it in Go). -/
def Regexp.Capture : Regexp → Regexp
  | .grouped re _ setFlags unsetFlags _ => .grouped re "" setFlags unsetFlags false
  | r => r

/-- `CaptureAs(name)`: clears `noCapture`, sets the name. -/
def Regexp.CaptureAs : Regexp → String → Regexp
  | .grouped re _ setFlags unsetFlags _, n => .grouped re n setFlags unsetFlags false
  | r, _ => r

/-- `NoCapture()`: sets `noCapture`, clears the name. -/
def Regexp.NoCapture : Regexp → Regexp
  | .grouped re _ setFlags unsetFlags _ => .grouped re "" setFlags unsetFlags true
  | r => r

/-- `SetFlags(flags)`: replaces the set-flags bitset. -/
def Regexp.SetFlags : Regexp → Nat → Regexp
  | .grouped re name _ unsetFlags noCapture, f => .grouped re name f unsetFlags noCapture
  | r, _ => r

/-- `UnsetFlags(flags)`: replaces the unset-flags bitset. -/
def Regexp.UnsetFlags : Regexp → Nat → Regexp
  | .grouped re name setFlags _ noCapture, f => .grouped re name setFlags f noCapture
  | r, _ => r

/-- `Raw(s string)` -/
def Raw (s : String) : Regexp := .literal s

/-- `Sequence(subseqs ...Regexp)` -/
def Sequence (subseqs : List Regexp) : Regexp := .multi subseqs ""

/-- `OneOf(choices ...Regexp)`: the alternation is wrapped in a fresh
`groupedRegexp` at construction time. -/
def OneOf (choices : List Regexp) : Regexp :=
  .grouped (.multi choices "|") "" 0 0 false

/-- The capture name of a group node (the `name` field of
`groupedRegexp`). -/
def groupName : Regexp → String
  | .grouped _ n _ _ _ => n
  | _ => ""

/-- The `noCapture` field of a group node. -/
def groupNoCapture : Regexp → Bool
  | .grouped _ _ _ _ nc => nc
  | _ => false

/-- Group nodes obtainable through the public API: `x.Group()` on a
non-group node and `OneOf` both build `groupedRegexp{re: x}` with zero
fields; the group mutators transform existing groups (and
`groupedRegexp.Group()` returns its receiver, adding nothing new). -/
inductive GroupReachable : Regexp → Prop where
  | fresh (re : Regexp) : GroupReachable (.grouped re "" 0 0 false)
  | capture {g : Regexp} : GroupReachable g → GroupReachable g.Capture
  | captureAs {g : Regexp} (n : String) : GroupReachable g → GroupReachable (g.CaptureAs n)
  | noCapture {g : Regexp} : GroupReachable g → GroupReachable g.NoCapture
  | setFlags {g : Regexp} (f : Nat) : GroupReachable g → GroupReachable (g.SetFlags f)
  | unsetFlags {g : Regexp} (f : Nat) : GroupReachable g → GroupReachable (g.UnsetFlags f)

/-- Modelled from the spec: the distinction its Union algorithm draws
between "raw set/range members" and "named classes (ASCII/Unicode/Perl)". -/
def CharClass.isRawMember : CharClass → Bool
  | .set .. => true
  | .range .. => true
  | _ => false

/-- Modelled from the spec: one branch of the Union algorithm with
baseline polarity `p`.  Raw members are emitted with their negation
cleared (absorbed into the bracket's own polarity); named classes have
their local negation flipped to the branch's baseline (original polarity
XOR baseline). -/
def unionBranch (p : Bool) (raws named : List CharClass) : CharClass :=
  .set []
    (raws.map (fun c => c.setNeg false)
      ++ named.map (fun c => c.setNeg (Bool.xor c.negated p)))
    p

/-- Modelled from the spec: the `Union` function is not under src/ (only
its tests and callers are).  Per spec section 4.1 it partitions the input
into polarity groups; when raw set/range members of both polarities are
present it emits an alternation (wrapped by `OneOf`) of the non-negated
branch followed by the negated branch, distributing each named class to
the branch of its own original polarity; otherwise it emits a single
bracket whose polarity is that of the raw members (non-negated when there
are none), hosting all named classes.  The branching on raw members only
follows the repository's own tests (src/regen_test.go lines 124-142),
which the spec's section 8 restates. -/
def Union (classes : List CharClass) : Regexp :=
  let posRaw := classes.filter fun c => c.isRawMember && c.negated == false
  let negRaw := classes.filter fun c => c.isRawMember && c.negated == true
  let named := classes.filter fun c => !c.isRawMember
  if !posRaw.isEmpty && !negRaw.isEmpty then
    OneOf
      [.charClass (unionBranch false posRaw (named.filter fun c => c.negated == false)),
       .charClass (unionBranch true negRaw (named.filter fun c => c.negated == true))]
  else
    .charClass (unionBranch (!negRaw.isEmpty) (classes.filter fun c => c.isRawMember) named)

/-! Spec-side reconstructions.  The definitions below follow the wording
of the specification (and of the claims under check); the theorems compare
them with the source-side definitions above. -/

/-- Plain concatenation of a list of strings, in order, with no leading,
trailing or separating text (spec wording for `Sequence`). -/
def specConcat : List String → String
  | [] => ""
  | s :: rest => s ++ specConcat rest

/-- Joining with a separator between consecutive elements only, with no
leading or trailing separator (spec wording for alternation). -/
def joinSep (sep : String) : List String → String
  | [] => ""
  | [s] => s
  | s :: rest => s ++ sep ++ joinSep sep rest

/-- Spec wording for the group flags segment: the set-flags string, then
a `-` followed by the unset-flags string when unset-flags is non-empty. -/
def flagsSegment (setFlags unsetFlags : Nat) : String :=
  (if setFlags ≠ 0 then flagString setFlags else "")
    ++ (if unsetFlags ≠ 0 then "-" ++ flagString unsetFlags else "")

/-- Spec wording for `Append`: an ExplicitSet receiver unions the classes
into its nested-class list, preserving its own chars and negation; any
other receiver is discarded as a simple-form node and funneled through a
fresh ExplicitSet wrapper (no chars of its own, nested list = receiver
followed by the appended classes, negation copied from the receiver). -/
def AppendSpec (c : CharClass) (cs : List CharClass) : CharClass :=
  match c with
  | .set chars nested neg => .set chars (nested ++ cs) neg
  | other => .set [] (other :: cs) other.negated

/-- Claim wording for one Union branch body of baseline polarity `p`:
the raw set/range members whose own polarity is `p`, absorbed (negation
cleared), followed by the named classes whose original polarity is `p`,
their local negation flipped to the branch's baseline. -/
def branchBodySpec (p : Bool) (classes : List CharClass) : String :=
  classListStr
      ((classes.filter fun c => c.isRawMember && c.negated == p).map
        fun c => c.setNeg false)
    ++ classListStr
      ((classes.filter fun c => !c.isRawMember && c.negated == p).map
        fun c => c.setNeg (Bool.xor c.negated p))

/-! Helper lemmas. -/

theorem classListStr_append (l1 l2 : List CharClass) :
    classListStr (l1 ++ l2) = classListStr l1 ++ classListStr l2 := by
  induction l1 with
  | nil => simp [classListStr]
  | cons c rest ih => simp [classListStr, ih, String.append_assoc]

theorem charsStr_eq_specConcat (chars : List Char) :
    charsStr chars = specConcat (chars.map writeCharSetRune) := by
  suffices h : ∀ acc : String,
      chars.foldl (fun sb c => sb ++ writeCharSetRune c) acc
        = acc ++ specConcat (chars.map writeCharSetRune) by
    simpa [charsStr] using h ""
  induction chars with
  | nil => intro acc; simp [specConcat]
  | cons c rest ih => intro acc; simp [specConcat, ih, String.append_assoc]

theorem writeCharSetRune_eq (c : Char) :
    writeCharSetRune c
      = (if c = '\\' ∨ c = '^' then "\\" else "") ++ c.toString := by
  by_cases h : c = '\\' ∨ c = '^' <;> simp [writeCharSetRune, h]

theorem renderSep_eq_joinSep (l : List Regexp) (sep : String) :
    renderSep l sep = joinSep sep (l.map Regexp.render) := by
  induction l with
  | nil => rfl
  | cons r rest ih =>
    cases rest with
    | nil => rfl
    | cons a t => simp [renderSep, joinSep, ih]

theorem requiresParens_eq (re : Regexp) (s : String) :
    requiresParens re s
      = !(re.isGrouped || re.isCharClass || s.utf8ByteSize == 1
          || (s.utf8ByteSize == 2 && strHeadIsBackslash s)) := by
  simp only [requiresParens]
  cases re.isGrouped <;> cases re.isCharClass <;>
    cases h1 : (s.utf8ByteSize == 1) <;>
      cases h2 : (s.utf8ByteSize == 2 && strHeadIsBackslash s) <;> simp [h1, h2]

theorem groupReachable_shape {r : Regexp} (h : GroupReachable r) :
    ∃ re name sF uF nc, r = .grouped re name sF uF nc ∧ (name ≠ "" → nc = false) := by
  induction h with
  | fresh re => exact ⟨re, "", 0, 0, false, rfl, by simp⟩
  | capture _ ih =>
    obtain ⟨re, name, sF, uF, nc, rfl, _⟩ := ih
    exact ⟨re, "", sF, uF, false, rfl, by simp⟩
  | captureAs n _ ih =>
    obtain ⟨re, name, sF, uF, nc, rfl, _⟩ := ih
    exact ⟨re, n, sF, uF, false, rfl, fun _ => rfl⟩
  | noCapture _ ih =>
    obtain ⟨re, name, sF, uF, nc, rfl, _⟩ := ih
    exact ⟨re, "", sF, uF, true, rfl, by simp⟩
  | setFlags f _ ih =>
    obtain ⟨re, name, sF, uF, nc, rfl, hinv⟩ := ih
    exact ⟨re, name, f, uF, nc, rfl, hinv⟩
  | unsetFlags f _ ih =>
    obtain ⟨re, name, sF, uF, nc, rfl, hinv⟩ := ih
    exact ⟨re, name, sF, f, nc, rfl, hinv⟩

/-! Claim theorems. -/

/-- C3: `Append` on a non-ExplicitSet receiver (Range, NamedASCII,
NamedUnicode) produces a new ExplicitSet: the receiver's simple-form path
is discarded and its content funneled through the set wrapper as the
first nested class, followed by the appended classes, with the set's
negation copied from the receiver; `Append` on an ExplicitSet unions the
classes into its nested-class list, preserving its chars and its own
negation. -/
theorem append_funnels_through_set_wrapper (c : CharClass) (cs : List CharClass) :
    c.Append cs = AppendSpec c cs ∧ (c.Append cs).negated = c.negated := by
  cases c <;> exact ⟨rfl, rfl⟩

/-- C9: `Optional` is exactly `Repeat().Min(0).Max(1)`, and therefore
renders as the (possibly parenthesized) child text followed by the `?`
quantifier. -/
theorem optional_is_repeat_min0_max1 (t : Regexp) :
    t.Optional = (t.Repeat.Min 0).Max 1
  ∧ Regexp.render t.Optional = Regexp.render ((t.Repeat.Min 0).Max 1)
  ∧ Regexp.render t.Optional
      = (if requiresParens t t.render then "(" ++ t.render ++ ")" else t.render) ++ "?" := by
  refine ⟨rfl, rfl, ?_⟩
  simp [Regexp.Optional, Regexp.Repeat, Regexp.Min, Regexp.Max, Regexp.render, quantSuffix]

/-- C10: `Negate` is an involution on every character-class variant: it
changes only the negation state (it equals `setNeg` at the flipped flag),
and double negation renders to exactly the original string. -/
theorem negate_involutive_render (c : CharClass) :
    c.Negate.Negate = c
  ∧ c.Negate = c.setNeg (!c.negated)
  ∧ Regexp.render (.charClass c.Negate.Negate) = Regexp.render (.charClass c) := by
  have h1 : c.Negate.Negate = c := by
    cases c <;> simp [CharClass.Negate]
  exact ⟨h1, by cases c <;> rfl, by rw [h1]⟩

/-- C7: `Sequence` renders as the concatenation of the children's
renderings in order with no separator and no leading or trailing text;
`OneOf` is auto-wrapped at construction in a capturing group with no name
and no flags, and renders as the children's renderings joined by `|`
between consecutive elements only, inside parentheses. -/
theorem sequence_oneof_render (rs : List Regexp) :
    Regexp.render (Sequence rs) = specConcat (rs.map Regexp.render)
  ∧ OneOf rs = Regexp.grouped (.multi rs "|") "" 0 0 false
  ∧ Regexp.render (OneOf rs) = "(" ++ joinSep "|" (rs.map Regexp.render) ++ ")" := by
  refine ⟨?_, rfl, ?_⟩
  · have h : Regexp.render (Sequence rs) = joinSep "" (rs.map Regexp.render) := by
      simp [Sequence, Regexp.render, renderSep_eq_joinSep]
    rw [h]
    generalize rs.map Regexp.render = l
    induction l with
    | nil => rfl
    | cons s rest ih =>
      cases rest with
      | nil => simp [joinSep, specConcat]
      | cons a t => simp_all [joinSep, specConcat]
  · simp [OneOf, Regexp.render, renderSep_eq_joinSep]

/-- C8: inside a class body exactly the characters `\` and `^` are
backslash-escaped, as set members and as range boundaries; in particular
`CharSet('^','\\')` renders as `[\^\\]` and `CharRange('\\','^')` as
`[\\-\^]`. -/
theorem charclass_escaping_rule (chars : List Char) (a b : Char) (neg : Bool) :
    Regexp.render (.charClass (.set chars [] neg))
      = "[" ++ ((if neg = true then "^" else "")
        ++ specConcat (chars.map fun c =>
            (if c = '\\' ∨ c = '^' then "\\" else "") ++ c.toString)) ++ "]"
  ∧ Regexp.render (.charClass (.range a b neg))
      = "[" ++ ((if neg = true then "^" else "")
        ++ (((if a = '\\' ∨ a = '^' then "\\" else "") ++ a.toString) ++ "-"
          ++ ((if b = '\\' ∨ b = '^' then "\\" else "") ++ b.toString))) ++ "]"
  ∧ Regexp.render (.charClass (CharSet ['^', '\\'])) = "[\\^\\\\]"
  ∧ Regexp.render (.charClass (CharRange '\\' '^')) = "[\\\\-\\^]" := by
  have hw : writeCharSetRune
      = fun c => (if c = '\\' ∨ c = '^' then "\\" else "") ++ c.toString :=
    funext writeCharSetRune_eq
  refine ⟨?_, ?_, by decide, by decide⟩
  · simp [Regexp.render, CharClass.renderClass, CharClass.charSetStr, classListStr,
      charsStr_eq_specConcat, hw, String.append_assoc]
  · simp [Regexp.render, CharClass.renderClass, CharClass.charSetStr,
      writeCharSetRune_eq, String.append_assoc]

/-- C2 counterexample: the claim predicts no parentheses when the
rendered child text is exactly one character, but the source measures
UTF-8 bytes: `Raw("é")` renders to a one-character, two-byte string whose
first byte is not a backslash, and repeating it does parenthesize. -/
theorem repeat_paren_char_count_cex :
    ((Raw "é").render).length = 1
  ∧ Regexp.render ((Raw "é").Repeat) = "(é)*"
  ∧ Regexp.render ((Raw "é").Repeat) ≠ (Raw "é").render ++ "*" := by
  refine ⟨by decide, by decide, by decide⟩

/-- C2 (amended): for every Repetition node, the rendered child text is
wrapped in parentheses exactly when none of these conditions holds: the
child is itself a Group; the child is a CharClass; the rendered text is
exactly one UTF-8 byte long; the rendered text is exactly two UTF-8 bytes
long and its first byte is a backslash. -/
theorem repeat_paren_byte_rule (child : Regexp) (min : Nat) (hasMin : Bool) (max : Nat)
    (hasMax : Bool) (ungreedy : Bool) :
    Regexp.render (.repeated child min hasMin max hasMax ungreedy)
      = (if child.isGrouped || child.isCharClass
            || child.render.utf8ByteSize == 1
            || (child.render.utf8ByteSize == 2 && strHeadIsBackslash child.render)
          then child.render
          else "(" ++ child.render ++ ")")
        ++ quantSuffix min max hasMax ++ (if ungreedy = true then "?" else "") := by
  simp only [Regexp.render, requiresParens_eq]
  cases h : (child.isGrouped || child.isCharClass
      || child.render.utf8ByteSize == 1
      || (child.render.utf8ByteSize == 2 && strHeadIsBackslash child.render)) <;>
    simp [h, String.append_assoc]

/-- C4: the quantifier suffix of a Repetition is `*` when there is no
explicit maximum and the minimum is 0 or unset, `+` when the minimum is
1, `{min,}` otherwise; with an explicit maximum it is `?` when min is 0
and max is 1, `{min}` when min equals max, `{min,max}` otherwise; and a
trailing `?` is appended if and only if the repetition is ungreedy.  The
hypothesis records that an unset minimum leaves the field at 0, which is
the only way the fields arise through the API. -/
theorem repeat_quantifier_suffix_selection (child : Regexp) (min : Nat) (hasMin : Bool)
    (max : Nat) (hasMax : Bool) (ungreedy : Bool) (hmin : hasMin = false → min = 0) :
    Regexp.render (.repeated child min hasMin max hasMax ungreedy)
      = (if requiresParens child child.render then "(" ++ child.render ++ ")"
          else child.render)
        ++ ((if hasMax = false then
              (if min = 0 ∨ hasMin = false then "*"
                else if min = 1 then "+"
                else "\x7b" ++ toString min ++ ",\x7d")
            else
              (if min = 0 ∧ max = 1 then "?"
                else if min = max then "\x7b" ++ toString min ++ "\x7d"
                else "\x7b" ++ toString min ++ "," ++ toString max ++ "\x7d"))
          ++ (if ungreedy = true then "?" else "")) := by
  have hq : quantSuffix min max hasMax
      = (if hasMax = false then
          (if min = 0 ∨ hasMin = false then "*"
            else if min = 1 then "+"
            else "\x7b" ++ toString min ++ ",\x7d")
        else
          (if min = 0 ∧ max = 1 then "?"
            else if min = max then "\x7b" ++ toString min ++ "\x7d"
            else "\x7b" ++ toString min ++ "," ++ toString max ++ "\x7d")) := by
    cases hasMax with
    | false =>
      by_cases h0 : min = 0
      · simp [quantSuffix, h0]
      · have hm : hasMin = true := by
          cases hhm : hasMin with
          | false => exact absurd (hmin hhm) h0
          | true => rfl
        simp [quantSuffix, h0, hm]
    | true =>
      by_cases h01 : min = 0 ∧ max = 1
      · simp [quantSuffix, h01.1, h01.2]
      · have hb : (max == 1 && min == 0) = false := by
          cases hmx : (max == 1) <;> cases hmn : (min == 0) <;>
            simp_all [beq_iff_eq]
        by_cases heq : min = max <;> simp [quantSuffix, hb, heq, h01, And.comm]
  simp only [Regexp.render, hq, String.append_assoc]

/-- C4 witness: min 2, no explicit maximum, ungreedy, around the
one-byte child `a`. -/
theorem repeat_quantifier_suffix_selection_witness :
    (true = false → (2 : Nat) = 0)
  ∧ Regexp.render (.repeated (.literal "a") 2 true 0 false true) = "a\x7b2,\x7d?" := by
  refine ⟨by decide, ?_⟩
  have h := repeat_quantifier_suffix_selection (.literal "a") 2 true 0 false true
    (by decide)
  rw [h]; decide

/-- C5: a group renders as an open paren, `?P<name>` when a capture name
is set, then either `?` + flags-segment + `:` when no-capture is
requested, or an inner `(?flags)` directive before the child when the
flags segment is non-empty, then the child's rendering and a close paren;
the flags segment is the set-flags string followed by `-` and the
unset-flags string when unset-flags is non-empty. -/
theorem group_render_structure (re : Regexp) (name : String) (sF uF : Nat) (nc : Bool) :
    Regexp.render (.grouped re name sF uF nc)
      = "(" ++ ((if name ≠ "" then "?P<" ++ name ++ ">" else "")
        ++ ((if nc = true then "?" ++ flagsSegment sF uF ++ ":"
            else if flagsSegment sF uF ≠ "" then "(?" ++ flagsSegment sF uF ++ ")" else "")
          ++ (Regexp.render re ++ ")"))) := by
  have hfs : ((if sF != 0 then flagString sF else "")
      ++ (if uF != 0 then "-" ++ flagString uF else "")) = flagsSegment sF uF := by
    simp [flagsSegment, bne]
  simp only [Regexp.render, hfs]
  by_cases hn : name = "" <;> cases nc <;>
    by_cases hf : flagsSegment sF uF = "" <;>
      simp [hn, hf] <;>
        (apply String.ext; simp [String.data_append])

/-- C6: on every group node reachable through the public constructors and
mutators, a capture name and the no-capture flag are never both present;
`CaptureAs` sets the name and clears no-capture, `NoCapture` sets
no-capture and clears the name, and a freshly grouped node is capturing
with no name. -/
theorem group_name_nocapture_exclusive (r : Regexp) (h : GroupReachable r) (n : String) :
    ¬(groupName r ≠ "" ∧ groupNoCapture r = true)
  ∧ groupName (r.CaptureAs n) = n ∧ groupNoCapture (r.CaptureAs n) = false
  ∧ groupName r.NoCapture = "" ∧ groupNoCapture r.NoCapture = true
  ∧ groupName ((Regexp.literal n).Group) = ""
  ∧ groupNoCapture ((Regexp.literal n).Group) = false := by
  obtain ⟨re, name, sF, uF, nc, rfl, hinv⟩ := groupReachable_shape h
  refine ⟨?_, rfl, rfl, rfl, rfl, rfl, rfl⟩
  rintro ⟨hname, hnc⟩
  simp [groupName] at hname
  simp [groupNoCapture, hinv hname] at hnc

/-- C6 witness: a fresh group set to NoCapture. -/
theorem group_name_nocapture_exclusive_witness :
    ¬(groupName ((Regexp.literal "a").Group.NoCapture) ≠ ""
        ∧ groupNoCapture ((Regexp.literal "a").Group.NoCapture) = true)
  ∧ groupName (((Regexp.literal "a").Group.NoCapture).CaptureAs "n") = "n"
  ∧ groupNoCapture (((Regexp.literal "a").Group.NoCapture).CaptureAs "n") = false
  ∧ groupName ((Regexp.literal "a").Group.NoCapture).NoCapture = ""
  ∧ groupNoCapture ((Regexp.literal "a").Group.NoCapture).NoCapture = true
  ∧ groupName ((Regexp.literal "n").Group) = ""
  ∧ groupNoCapture ((Regexp.literal "n").Group) = false :=
  group_name_nocapture_exclusive ((Regexp.literal "a").Group.NoCapture)
    (GroupReachable.noCapture (GroupReachable.fresh (Regexp.literal "a"))) "n"

/-- C1 counterexample: this input list contains members of both
polarities (the ASCII class and the Perl whitespace class are negated,
the explicit set and the Unicode class are not), yet Union emits a single
bracket expression and no alternation at all, because no *raw* set/range
member is negated.  This reproduces the repository's own test expectation
(src/regen_test.go lines 134-142). -/
theorem union_mixed_member_polarity_single_bracket_cex :
    ((CharSet ['h', 'こ', 'é']).negated = false
      ∧ ((ASCIICharClass "alpha").Negate).negated = true)
  ∧ Regexp.render (Union [CharSet ['h', 'こ', 'é'], (ASCIICharClass "alpha").Negate,
        UnicodeCharClass "Greek", Whitespace.Negate])
      = "[hこé[:^alpha:]\\p\x7bGreek\x7d\\S]"
  ∧ ((Regexp.render (Union [CharSet ['h', 'こ', 'é'], (ASCIICharClass "alpha").Negate,
        UnicodeCharClass "Greek", Whitespace.Negate])).data.contains '|') = false := by
  refine ⟨⟨rfl, rfl⟩, by decide, by decide⟩

/-- C1 (amended): for every list of character classes passed to Union
that contains both negated and non-negated *raw set/range* members, Union
renders as an alternation of exactly two bracket expressions with the
non-negated branch first; each branch holds the raw members of its own
polarity (absorbed into the bracket's polarity) and the named classes of
their own original polarity, their local negation flipped to the branch's
baseline. -/
theorem union_mixed_raw_polarity_two_branches (classes : List CharClass)
    (hpos : ∃ c ∈ classes, c.isRawMember = true ∧ c.negated = false)
    (hneg : ∃ c ∈ classes, c.isRawMember = true ∧ c.negated = true) :
    Regexp.render (Union classes)
      = "(" ++ "[" ++ branchBodySpec false classes ++ "]" ++ "|"
        ++ "[" ++ "^" ++ branchBodySpec true classes ++ "]" ++ ")" := by
  obtain ⟨cp, hcpm, hcpr, hcpn⟩ := hpos
  obtain ⟨cn, hcnm, hcnr, hcnn⟩ := hneg
  have hp : (classes.filter fun c => c.isRawMember && c.negated == false).isEmpty
      = false := by
    rw [List.isEmpty_eq_false]
    exact List.ne_nil_of_mem (List.mem_filter.mpr ⟨hcpm, by simp [hcpr, hcpn]⟩)
  have hn : (classes.filter fun c => c.isRawMember && c.negated == true).isEmpty
      = false := by
    rw [List.isEmpty_eq_false]
    exact List.ne_nil_of_mem (List.mem_filter.mpr ⟨hcnm, by simp [hcnr, hcnn]⟩)
  have hff : ∀ p : Bool,
      ((classes.filter fun c => !c.isRawMember).filter fun c => c.negated == p)
        = classes.filter fun c => !c.isRawMember && c.negated == p := by
    intro p
    rw [List.filter_filter]
    exact List.filter_congr fun c _ => Bool.and_comm _ _
  simp only [Union, hp, hn, Bool.not_false, Bool.and_self, if_true, Bool.true_and]
  simp only [OneOf, Regexp.render, renderSep, CharClass.renderClass, unionBranch,
    CharClass.charSetStr, charsStr, List.foldl_nil, hff]
  simp only [branchBodySpec, classListStr_append]
  apply String.ext
  simp [String.data_append]

/-- C1 witness: the mixed-polarity input of the repository's test at
src/regen_test.go lines 113-122. -/
theorem union_mixed_raw_polarity_two_branches_witness :
    ((∃ c ∈ [CharSet ['h', 'こ', 'é'], ASCIICharClass "alpha", UnicodeCharClass "Greek",
          (CharSet ['v']).Negate, (CharRange 'a' 'c').Negate],
        c.isRawMember = true ∧ c.negated = false)
      ∧ (∃ c ∈ [CharSet ['h', 'こ', 'é'], ASCIICharClass "alpha", UnicodeCharClass "Greek",
          (CharSet ['v']).Negate, (CharRange 'a' 'c').Negate],
        c.isRawMember = true ∧ c.negated = true))
  ∧ Regexp.render (Union [CharSet ['h', 'こ', 'é'], ASCIICharClass "alpha",
        UnicodeCharClass "Greek", (CharSet ['v']).Negate, (CharRange 'a' 'c').Negate])
      = "([hこé[:alpha:]\\p\x7bGreek\x7d]|[^va-c])" := by
  refine ⟨⟨by decide, by decide⟩, ?_⟩
  have h := union_mixed_raw_polarity_two_branches
    [CharSet ['h', 'こ', 'é'], ASCIICharClass "alpha", UnicodeCharClass "Greek",
      (CharSet ['v']).Negate, (CharRange 'a' 'c').Negate]
    (by decide) (by decide)
  rw [h]; decide

/-! Validation against the expectations of src/regen_test.go: the
embedding reproduces every rendering checked by the repository's test
suite that is expressible over the embedded surface. -/

theorem render_matches_test_vectors :
    (OneOf [Raw "a", Raw "bc"]).render = "(a|bc)"
  ∧ (Raw "\\zhello\\z").render = "\\zhello\\z"
  ∧ (Sequence [Raw "hello", Raw "world"]).render = "helloworld"
  ∧ (Regexp.charClass (CharSet ['h', 'こ', 'é'])).render = "[hこé]"
  ∧ (Regexp.charClass ((CharSet ['h', 'こ', 'é']).Negate)).render = "[^hこé]"
  ∧ (Regexp.charClass (CharRange 'h' 'こ')).render = "[h-こ]"
  ∧ (Regexp.charClass ((CharRange 'h' 'こ').Negate)).render = "[^h-こ]"
  ∧ (Regexp.charClass (ASCIICharClass "alpha")).render = "[[:alpha:]]"
  ∧ (Regexp.charClass ((ASCIICharClass "alpha").Negate)).render = "[[:^alpha:]]"
  ∧ (Regexp.charClass (UnicodeCharClass "Greek")).render = "\\p\x7bGreek\x7d"
  ∧ (Regexp.charClass ((UnicodeCharClass "Greek").Negate)).render = "\\P\x7bGreek\x7d"
  ∧ (Regexp.charClass (UnicodeCharClass "Z")).render = "\\pZ"
  ∧ (Regexp.charClass Whitespace).render = "\\s"
  ∧ (Regexp.charClass Whitespace.Negate).render = "\\S"
  ∧ ((Raw "hello").Group).render = "(hello)"
  ∧ ((Raw "hello").Group.NoCapture).render = "(?:hello)"
  ∧ ((Raw "hello").Group.SetFlags 3).render = "((?im)hello)"
  ∧ ((Raw "hello").Group.UnsetFlags 3).render = "((?-im)hello)"
  ∧ (((Raw "hello").Group.SetFlags 1).UnsetFlags 2).render = "((?i-m)hello)"
  ∧ ((Raw "hello").Group.NoCapture.SetFlags 3).render = "(?im:hello)"
  ∧ ((Raw "hello").Group.CaptureAs "test").render = "(?P<test>hello)"
  ∧ (((Raw "hello").Group.CaptureAs "test").SetFlags 1).render = "(?P<test>(?i)hello)"
  ∧ ((Raw "hello").Repeat).render = "(hello)*"
  ∧ (((Raw "hello").Repeat).Min 1).render = "(hello)+"
  ∧ (((Raw "hello").Repeat).Min 2).render = "(hello)\x7b2,\x7d"
  ∧ (((Raw "hello").Repeat).Max 10).render = "(hello)\x7b0,10\x7d"
  ∧ ((((Raw "hello").Repeat).Min 1).Max 10).render = "(hello)\x7b1,10\x7d"
  ∧ (((Raw "hello").Repeat).Exactly 5).render = "(hello)\x7b5\x7d"
  ∧ (((Raw "hello").Repeat).Ungreedy).render = "(hello)*?"
  ∧ ((Regexp.charClass (CharSet ['h', 'e', 'y'])).Repeat).render = "[hey]*"
  ∧ ((Raw "hello").Group.Repeat).render = "(hello)*"
  ∧ ((Raw "h").Repeat).render = "h*"
  ∧ ((Raw "\\w").Repeat).render = "\\w*"
  ∧ ((((Regexp.charClass (CharSet ['h', 'e', 'y'])).Repeat.Min 1).Group).CaptureAs
      "test").render = "(?P<test>[hey]+)"
  ∧ ((Regexp.charClass (CharSet ['h', 'e', 'y'])).Optional).render = "[hey]?"
  ∧ flagString 15 = "imsU"
  ∧ flagString 5 = "is" := by
  decide

theorem union_matches_test_vectors :
    (Union [CharSet ['h', 'こ', 'é'], ASCIICharClass "alpha", UnicodeCharClass "Greek",
        CharSet ['v'], CharRange 'a' 'c']).render
      = "[hこéva-c[:alpha:]\\p\x7bGreek\x7d]"
  ∧ (Union [CharSet ['h', 'こ', 'é'], ASCIICharClass "alpha", UnicodeCharClass "Greek",
        (CharSet ['v']).Negate, (CharRange 'a' 'c').Negate]).render
      = "([hこé[:alpha:]\\p\x7bGreek\x7d]|[^va-c])"
  ∧ (Union [(CharSet ['h', 'こ', 'é']).Negate, (ASCIICharClass "alpha").Negate,
        UnicodeCharClass "Greek", Whitespace.Negate]).render
      = "[^hこé[:alpha:]\\P\x7bGreek\x7d\\s]"
  ∧ (Union [CharSet ['h', 'こ', 'é'], (ASCIICharClass "alpha").Negate,
        UnicodeCharClass "Greek", Whitespace.Negate]).render
      = "[hこé[:^alpha:]\\p\x7bGreek\x7d\\S]"
  ∧ (Union [CharSet ['h', 'こ', 'é'], (ASCIICharClass "alpha").Negate,
        UnicodeCharClass "Greek", Whitespace.Negate, (CharRange 'a' 'c').Negate]).render
      = "([hこé\\p\x7bGreek\x7d]|[^a-c[:alpha:]\\s])"
  ∧ ((Union [UnicodeCharClass "Hiragana", UnicodeCharClass "Katakana",
        UnicodeCharClass "Han"]).Repeat.Min 1).render
      = "[\\p\x7bHiragana\x7d\\p\x7bKatakana\x7d\\p\x7bHan\x7d]+" := by
  decide

end Regen
